import Mathlib

/-!
Verification of the line classification and rewriting engine of
VSJumpToLine.py against its specification.  Lines are modelled as
`List Char`; the regular expressions of the source are embedded as
executable backtracking matchers with Python `re` semantics
(leftmost-first search, greedy groups, `re.sub` replacing every
non-overlapping occurrence, unmatched groups substituted by the empty
string).
-/

namespace VSJumpToLine

/-- Numeric severity values, mirroring the source's IntEnum `Severity`. -/
def Severity.ignore : Nat := 0

def Severity.offset_before : Nat := 1

def Severity.offset_behind : Nat := 2

def Severity.note : Nat := 10

def Severity.info : Nat := 20

def Severity.warning : Nat := 30

def Severity.error : Nat := 40

/-- Substring containment; models Python `hay.find(needle) > -1`. -/
def containsSub (needle : List Char) : List Char → Bool
  | [] => needle.isEmpty
  | c :: t => needle.isPrefixOf (c :: t) || containsSub needle t

/-- Models `__match_severity`: case-insensitive marker search, first marker
group of the if/elif chain wins. -/
def match_severity (line : List Char) : Nat :=
  let low := line.map Char.toLower
  if containsSub ("note:".data) low || containsSub ("note[".data) low then
    Severity.note
  else if containsSub ("warning:".data) low || containsSub ("warning[".data) low
      || containsSub (":fail:".data) low then
    Severity.warning
  else if containsSub ("error:".data) low || containsSub ("error[".data) low
      || containsSub ("undefined reference".data) low then
    Severity.error
  else
    Severity.ignore

/-- The severity markers of `__match_severity`, as plain data. -/
def severityMarkers : List (List Char) :=
  ["note:".data, "note[".data, "warning:".data, "warning[".data,
   ":fail:".data, "error:".data, "error[".data, "undefined reference".data]

/-- A line contains some severity marker (case-insensitively). -/
def hasMarker (line : List Char) : Bool :=
  severityMarkers.any (fun m => containsSub m (line.map Char.toLower))

/-- Capture groups of one occurrence of the union location pattern
`:(\d+):((\d+):)?|(\"(.+)\",(\d+))|(\((\d+)\) :)` of
`__match_line_and_column`.  `a1 g1 g3` records groups 1 and 3 (group 3
present exactly when the optional column group 2 matched), `a2 g5 g6`
groups 5 and 6, `a3 g8` group 8. -/
inductive UGroups where
  | a1 (g1 : List Char) (g3 : Option (List Char))
  | a2 (g5 : List Char) (g6 : List Char)
  | a3 (g8 : List Char)
deriving DecidableEq, Repr

/-- Alternative 1 of the union pattern, `:(\d+):((\d+):)?`, attempted at
the head of the list: greedy digits, greedy optional column group.
Returns the groups and the suffix after the matched text. -/
def tryA1 : List Char → Option (UGroups × List Char)
  | [] => none
  | c :: t =>
    if c = ':' then
      let d1 := t.takeWhile Char.isDigit
      if d1.isEmpty then none
      else
        match t.dropWhile Char.isDigit with
        | ':' :: t2 =>
          let d2 := t2.takeWhile Char.isDigit
          if d2.isEmpty then some (.a1 d1 none, t2)
          else
            match t2.dropWhile Char.isDigit with
            | ':' :: t3 => some (.a1 d1 (some d2), t3)
            | _ => some (.a1 d1 none, t2)
        | _ => none
    else none

/-- All decompositions `s = p.1 ++ p.2`, in increasing length of `p.1`. -/
def splits : List Char → List (List Char × List Char)
  | [] => [([], [])]
  | c :: t => ([], c :: t) :: (splits t).map (fun p => (c :: p.1, p.2))

/-- Candidate consumptions of a greedy `.+` group: nonempty newline-free
prefixes, longest first (Python's backtracking order). -/
def gsplits (s : List Char) : List (List Char × List Char) :=
  ((splits s).filter (fun p => !p.1.isEmpty && !p.1.contains '\n')).reverse

/-- First success of `f` along a list (backtracking search). -/
def firstSome {α β : Type} (f : α → Option β) : List α → Option β
  | [] => none
  | a :: l =>
    match f a with
    | some b => some b
    | none => firstSome f l

/-- Tail check of alternative 2 after its greedy `.+`: expects
`\",(\d+)` and returns the groups and the suffix after the digits. -/
def a2Tail (mid rest : List Char) : Option (UGroups × List Char) :=
  match rest with
  | '"' :: ',' :: r2 =>
    if (r2.takeWhile Char.isDigit).isEmpty then none
    else some (.a2 mid (r2.takeWhile Char.isDigit), r2.dropWhile Char.isDigit)
  | _ => none

/-- Alternative 2 of the union pattern, `\"(.+)\",(\d+)`. -/
def tryA2 : List Char → Option (UGroups × List Char)
  | [] => none
  | c :: t =>
    if c = '"' then firstSome (fun p => a2Tail p.1 p.2) (gsplits t)
    else none

/-- Alternative 3 of the union pattern, `\((\d+)\) :`. -/
def tryA3 : List Char → Option (UGroups × List Char)
  | [] => none
  | c :: t =>
    if c = '(' then
      let d := t.takeWhile Char.isDigit
      if d.isEmpty then none
      else
        match t.dropWhile Char.isDigit with
        | ')' :: ' ' :: ':' :: t2 => some (.a3 d, t2)
        | _ => none
    else none

/-- One attempt of the union pattern at the head of `s`
(alternation order: A1, then A2, then A3). -/
def tryMatch (s : List Char) : Option (UGroups × List Char) :=
  match tryA1 s with
  | some r => some r
  | none =>
    match tryA2 s with
    | some r => some r
    | none => tryA3 s

/-- Models `re.search` of the union pattern: groups of the first (leftmost)
match, trying alternatives in order at each position. -/
def searchU : List Char → Option UGroups
  | [] => none
  | c :: t =>
    match tryMatch (c :: t) with
    | some (g, _) => some g
    | none => searchU t

/-- The four replacement templates of `__match_line_and_column`:
`(\1,\3):`, `(\1):`, `\5(\6):`, `(\8):`. -/
inductive Tmpl where
  | t1
  | t2
  | t3
  | t4
deriving DecidableEq, Repr

/-- Template selection from the groups of the first match (the if/elif
chain on `res.group(1)`, `group(2)`, `group(4)`, `group(7)`). -/
def pickTmpl : UGroups → Tmpl
  | .a1 _ (some _) => .t1
  | .a1 _ none => .t2
  | .a2 _ _ => .t3
  | .a3 _ => .t4

/-- A template applied to one occurrence's groups; groups that did not
participate in that occurrence are replaced by the empty string
(Python >= 3.5 `re.sub` behavior). -/
def applyTmpl : Tmpl → UGroups → List Char
  | .t1, .a1 g1 (some g3) => '(' :: (g1 ++ ',' :: (g3 ++ [')', ':']))
  | .t1, .a1 g1 none => '(' :: (g1 ++ [',', ')', ':'])
  | .t1, _ => "(,):".data
  | .t2, .a1 g1 _ => '(' :: (g1 ++ [')', ':'])
  | .t2, _ => "():".data
  | .t3, .a2 g5 g6 => g5 ++ ('(' :: (g6 ++ [')', ':']))
  | .t3, _ => "():".data
  | .t4, .a3 g8 => '(' :: (g8 ++ [')', ':'])
  | .t4, _ => "():".data

/-- Models `re.sub` of the union pattern with template `t`: every
non-overlapping match, scanning left to right, is replaced.  Fuel-driven
recursion; fuel = length of the list suffices because every match
consumes at least one character. -/
def subAux (t : Tmpl) : Nat → List Char → List Char
  | 0, s => s
  | _ + 1, [] => []
  | fuel + 1, c :: tl =>
    match tryMatch (c :: tl) with
    | some (g, rest) => applyTmpl t g ++ subAux t fuel rest
    | none => c :: subAux t fuel tl

/-- Models `re.sub` of the union pattern with template `t`. -/
def subU (t : Tmpl) (s : List Char) : List Char :=
  subAux t s.length s

/-- Models `__match_line_and_column`; the empty list models the empty string
"no recognized location pattern". -/
def match_line_and_column (line : List Char) : List Char :=
  match searchU line with
  | some g => subU (pickTmpl g) line
  | none => []

/-- Models `__match_special`: the anchored regex `^\[   LINE   \] --- (.+)`,
substituted by its group 1; empty result means "no match". -/
def match_special (line : List Char) : List Char :=
  if ("[   LINE   ] --- ".data).isPrefixOf line then
    let rest := line.drop 17
    let g1 := rest.takeWhile (fun c => c != '\n')
    if g1.isEmpty then []
    else g1 ++ rest.drop g1.length
  else []

/-- The `\(.+\):` tail of the path-resolution regex: a greedy `.+`
(group 4's interior) followed by the literal `) :`-free closer `):`.
`g1` is the already-fixed text of group 1. -/
def absLevel3 (g1 b2 : List Char) : Option (List Char × List Char × List Char) :=
  firstSome (fun w =>
    match w.2 with
    | c3 :: c4 :: rest =>
      if c3 = ')' ∧ c4 = ':' then some (g1, '(' :: (w.1 ++ [')']), rest)
      else none
    | _ => none) (gsplits b2)

/-- The `(.+)\(` part after the dot: greedy group 3, then the literal
`(`. `g2` is the already-fixed text of group 2. -/
def absLevel2 (g2 b1 : List Char) : Option (List Char × List Char × List Char) :=
  firstSome (fun r =>
    match r.2 with
    | [] => none
    | c2 :: b2 =>
      if c2 = '(' then absLevel3 (g2 ++ '.' :: r.1) b2 else none) (gsplits b1)

/-- Backtracking matcher for the anchored path-resolution regex
`((^.+)\.(.+))(\(.+\)):` of `__convert_to_absolute_path`.  All three
`.+` groups are greedy, tried longest first (greedy group 2, then the
literal dot, then `absLevel2`).  Returns
(group 1, group 4, suffix after the final colon); only those parts of
the match are used by the source. -/
def absMatch (line : List Char) : Option (List Char × List Char × List Char) :=
  firstSome (fun q =>
    match q.2 with
    | [] => none
    | c1 :: b1 => if c1 = '.' then absLevel2 q.1 b1 else none) (gsplits line)

/-- Read-only configuration of one run (owned by the excluded CLI
layer).  `workingDirGlob` models the recursive
`glob.iglob(option_working_dir ++ "/**/" ++ name)` walk: for a bare
filename it yields the first path the deterministic directory walk
finds, or `none`; the filesystem itself is outside the program text, so
the walk is an oracle parameter.  `workingDirGlob = none` models an
empty `option_working_dir`. -/
structure Config where
  option_multi_line : Nat
  option_suppress_identical : Bool
  workingDirGlob : Option (List Char → Option (List Char))
  option_file_input : List Char

/-- Models `__convert_to_absolute_path`; the empty list models the empty string
"no substitution performed".  On a glob hit the matched
`group1 ++ group4 ++ ":"` prefix is removed (`re.sub` of the anchored
regex by the empty string) and the line is rebuilt as
`found_path ++ group4 ++ ":" ++ remainder`. -/
def convert_to_absolute_path (cfg : Config) (line : List Char) : List Char :=
  match cfg.workingDirGlob with
  | none => []
  | some glob =>
    match absMatch line with
    | none => []
    | some (g1, g4, rest) =>
      if g1.contains '/' || g1.contains '\\' then []
      else
        match glob g1 with
        | none => []
        | some filename_path => filename_path ++ g4 ++ ':' :: rest

/-- The first two lines of `__append_result_list`: the processed line,
with the absolute-path substitution applied when it produced anything. -/
def resolved_line (cfg : Config) (line_processed : List Char) : List Char :=
  let abs_path_line := convert_to_absolute_path cfg line_processed
  if abs_path_line.isEmpty then line_processed else abs_path_line

/-- The mutable per-run state: the ordered Entry sequence
(`result_list`, each entry a tag/text pair) and the counters. -/
structure JState where
  result_list : List (Nat × List Char)
  cnt_suppressed_infos : Nat
  cnt_suppressed_notes : Nat
  cnt_suppressed_warnings : Nat
  cnt_suppressed_errors : Nat
  cnt_infos : Nat
  cnt_notes : Nat
  cnt_warnings : Nat
  cnt_errors : Nat
  cnt_lines : Nat
deriving DecidableEq, Repr

/-- Models `__append_result_list`.  Returns the new state and the returned
severity (`Severity.ignore` when the entry was suppressed). -/
def append_result_list (cfg : Config) (st : JState) (severity : Nat)
    (line_processed : List Char) (line_before : List Char) : JState × Nat :=
  let lp := resolved_line cfg line_processed
  let already_in_list :=
    cfg.option_suppress_identical && st.result_list.any (fun e => e.2 == lp)
  if already_in_list then
    ({ st with
        cnt_suppressed_infos :=
          if severity = Severity.info then st.cnt_suppressed_infos + 1
          else st.cnt_suppressed_infos,
        cnt_suppressed_notes :=
          if severity = Severity.note then st.cnt_suppressed_notes + 1
          else st.cnt_suppressed_notes,
        cnt_suppressed_warnings :=
          if severity = Severity.warning then st.cnt_suppressed_warnings + 1
          else st.cnt_suppressed_warnings,
        cnt_suppressed_errors :=
          if severity = Severity.error then st.cnt_suppressed_errors + 1
          else st.cnt_suppressed_errors }, Severity.ignore)
  else
    let st1 := { st with
        cnt_infos :=
          if severity = Severity.info then st.cnt_infos + 1 else st.cnt_infos,
        cnt_notes :=
          if severity = Severity.note then st.cnt_notes + 1 else st.cnt_notes,
        cnt_warnings :=
          if severity = Severity.warning then st.cnt_warnings + 1
          else st.cnt_warnings,
        cnt_errors :=
          if severity = Severity.error then st.cnt_errors + 1
          else st.cnt_errors }
    let st2 :=
      if cfg.option_multi_line ≠ 0 ∧ line_before.isEmpty = false then
        { st1 with result_list :=
            st1.result_list ++ [(severity + Severity.offset_before, line_before)] }
      else st1
    ({ st2 with result_list := st2.result_list ++ [(severity, lp)] }, severity)

/-- Scan for the first `:` before any newline (tail of the banner
pattern `.+:` after its first consumed character). -/
def colonBeforeNl : List Char → Bool
  | [] => false
  | c :: t => if c = ':' then true else if c = '\n' then false else colonBeforeNl t

/-- One attempt of the banner pattern `: In function.+:` (IGNORECASE)
at the head of `s`. -/
def bannerAt (s : List Char) : Bool :=
  (": in function".data).isPrefixOf (s.map Char.toLower) &&
    (match s.drop 13 with
     | [] => false
     | c :: t => c != '\n' && colonBeforeNl t)

/-- Models the truthiness of `re.search(": In function.+:", line, re.IGNORECASE)`. -/
def bannerSearch : List Char → Bool
  | [] => false
  | c :: t => bannerAt (c :: t) || bannerSearch t

/-- The codepoints Python `str.isspace` accepts: Unicode general
category Zs, or bidirectional class WS, B or S (CPython's
`Py_UNICODE_ISSPACE`): 09-0D, 1C-1F, 20, 85, A0, 1680, 2000-200A,
2028, 2029, 202F, 205F, 3000. -/
def pythonWhitespace : List Nat :=
  [0x09, 0x0a, 0x0b, 0x0c, 0x0d, 0x1c, 0x1d, 0x1e, 0x1f, 0x20, 0x85, 0xa0,
   0x1680, 0x2000, 0x2001, 0x2002, 0x2003, 0x2004, 0x2005, 0x2006, 0x2007,
   0x2008, 0x2009, 0x200a, 0x2028, 0x2029, 0x202f, 0x205f, 0x3000]

/-- Python `str.isspace` on a single character. -/
def pyIsSpace (c : Char) : Bool :=
  pythonWhitespace.contains c.toNat

/-- Python `line.isspace()`: nonempty and all whitespace. -/
def pyIsSpaceAll (l : List Char) : Bool :=
  !l.isEmpty && l.all pyIsSpace

/-- Models `file_line.replace('\n', '').replace('\r', '')`. -/
def stripNl (l : List Char) : List Char :=
  l.filter (fun c => c != '\n' && c != '\r')

/-- The loop-carried variables of `__process_input_file`: the shared
state, the `severity` of the previous iteration and the last computed
`line_before`. -/
structure LoopState where
  st : JState
  severity : Nat
  line_before : List Char
deriving DecidableEq, Repr

/-- One iteration of the `for file_line in file_tool_output` loop of
`__process_input_file`. -/
def step (cfg : Config) (ls : LoopState) (raw : List Char) : LoopState :=
  let line := stripNl raw
  let st0 := { ls.st with cnt_lines := ls.st.cnt_lines + 1 }
  let severity_last := ls.severity
  let severity := match_severity line
  let line_before := if bannerSearch line then line else []
  if cfg.option_multi_line ≠ 0 ∧ severity_last > Severity.ignore ∧
      severity = Severity.ignore ∧ line.head? = some ' ' ∧
      pyIsSpaceAll line = false then
    { st := { st0 with result_list :=
        st0.result_list ++ [(severity_last + Severity.offset_behind, line)] },
      severity := severity_last, line_before := line_before }
  else if severity > Severity.ignore then
    let line_processed_line_column := match_line_and_column line
    if line_processed_line_column.isEmpty then
      { st := (append_result_list cfg st0 severity line line_before).1,
        severity := severity, line_before := line_before }
    else
      let line_processed_special := match_special line_processed_line_column
      if line_processed_special.isEmpty then
        let r := append_result_list cfg st0 severity line_processed_line_column line_before
        { st := r.1, severity := r.2, line_before := line_before }
      else
        let r := append_result_list cfg st0 severity line_processed_special line_before
        { st := r.1, severity := r.2, line_before := line_before }
  else
    { st := st0, severity := severity, line_before := line_before }

/-- The state at engine start. -/
def initState : JState :=
  ⟨[], 0, 0, 0, 0, 0, 0, 0, 0, 0⟩

/-- Loop variables at engine start (`severity = ignore`,
no pending before-line). -/
def initLoop : LoopState :=
  ⟨initState, Severity.ignore, []⟩

/-- The whole pass of `__process_input_file` over already-decoded
lines. -/
def process (cfg : Config) (lines : List (List Char)) : LoopState :=
  lines.foldl (step cfg) initLoop

/-- Models `self.exit_fail_decode`. -/
def exit_fail_decode : Nat := 3

/-- The decode-failure message text `_print_error` produces (the
exception's own `err` detail, appended after `err: `, is outside the
model). -/
def decode_error_message (cfg : Config) : List Char :=
  "jtol: ERROR: filename: <".data ++ cfg.option_file_input ++ ">, err: ".data

/-- The loop of `__process_input_file` over a stream in which `none`
models a line at which decoding raises `UnicodeDecodeError`: the run
aborts with `sys.exit(exit_fail_decode)` and the error message, the
accumulated state is discarded (the error carries no entries and
`print_output` is never reached). -/
def processFrom (cfg : Config) :
    LoopState → List (Option (List Char)) → Except (Nat × List Char) LoopState
  | ls, [] => .ok ls
  | _, none :: _ => .error (exit_fail_decode, decode_error_message cfg)
  | ls, some raw :: rest => processFrom cfg (step cfg ls raw) rest

/-- Models `__process_input_file` over a possibly undecodable stream. -/
def process_input_file (cfg : Config) (stream : List (Option (List Char))) :
    Except (Nat × List Char) LoopState :=
  processFrom cfg initLoop stream

/-- No occurrence of the union pattern starts inside `u` when `u` is
followed by `v`: every nonempty tail of `u`, extended by `v`, fails
`tryMatch`. -/
def tailsAllFail (v : List Char) : List Char → Bool
  | [] => true
  | c :: t => (tryMatch (c :: (t ++ v))).isNone && tailsAllFail v t

/-- The accepted-entry counter belonging to a base severity. -/
def acceptedOf (st : JState) (severity : Nat) : Nat :=
  if severity = Severity.info then st.cnt_infos
  else if severity = Severity.note then st.cnt_notes
  else if severity = Severity.warning then st.cnt_warnings
  else if severity = Severity.error then st.cnt_errors
  else 0

/-- The suppressed-entry counter belonging to a base severity. -/
def suppressedOf (st : JState) (severity : Nat) : Nat :=
  if severity = Severity.info then st.cnt_suppressed_infos
  else if severity = Severity.note then st.cnt_suppressed_notes
  else if severity = Severity.warning then st.cnt_suppressed_warnings
  else if severity = Severity.error then st.cnt_suppressed_errors
  else 0

/-! ## Foundational lemmas about the matcher machinery -/

theorem length_dropWhile_le (p : Char → Bool) (l : List Char) :
    (l.dropWhile p).length ≤ l.length := by
  induction l with
  | nil => simp [List.dropWhile]
  | cons c t ih =>
    rw [List.dropWhile_cons]
    split
    · exact Nat.le_succ_of_le ih
    · simp

theorem splits_append : ∀ (s : List Char), ∀ p ∈ splits s, s = p.1 ++ p.2 := by
  intro s
  induction s with
  | nil =>
    intro p hp
    simp only [splits, List.mem_singleton] at hp
    simp [hp]
  | cons c t ih =>
    intro p hp
    simp only [splits, List.mem_cons, List.mem_map] at hp
    rcases hp with h | ⟨q, hq, rfl⟩
    · simp [h]
    · have := ih q hq
      simp only []
      rw [List.cons_append, ← this]

theorem gsplits_mem {s : List Char} {p : List Char × List Char}
    (hp : p ∈ gsplits s) : s = p.1 ++ p.2 ∧ p.1 ≠ [] := by
  unfold gsplits at hp
  rw [List.mem_reverse] at hp
  have h1 := List.mem_filter.mp hp
  refine ⟨splits_append s p h1.1, ?_⟩
  have h2 := h1.2
  simp only [Bool.and_eq_true, Bool.not_eq_true'] at h2
  intro hnil
  rw [hnil] at h2
  simp at h2

theorem firstSome_mem {α β : Type} {f : α → Option β} :
    ∀ {l : List α} {b : β}, firstSome f l = some b → ∃ a ∈ l, f a = some b := by
  intro l
  induction l with
  | nil => intro b h; simp [firstSome] at h
  | cons a l ih =>
    intro b h
    simp only [firstSome] at h
    cases hfa : f a with
    | some b2 =>
      rw [hfa] at h
      simp only [Option.some.injEq] at h
      exact ⟨a, List.mem_cons_self a l, by rw [hfa, h]⟩
    | none =>
      rw [hfa] at h
      simp only [] at h
      obtain ⟨a2, ha2, hfa2⟩ := ih h
      exact ⟨a2, List.mem_cons_of_mem a ha2, hfa2⟩

theorem tryA1_length {s r : List Char} {g : UGroups}
    (h : tryA1 s = some (g, r)) : r.length < s.length := by
  match s with
  | [] => simp [tryA1] at h
  | c :: t =>
    simp only [tryA1] at h
    split at h
    · split at h
      · exact absurd h (by simp)
      · split at h
        next t2 heq =>
          have h1 : t2.length < t.length := by
            have hd := length_dropWhile_le Char.isDigit t
            rw [heq] at hd
            simp only [List.length_cons] at hd
            omega
          split at h
          · injection h with h1e
            injection h1e with hg hr
            subst hr
            simp only [List.length_cons]
            omega
          · split at h
            next t3 heq2 =>
              injection h with h1e
              injection h1e with hg hr
              subst hr
              have h2 : t3.length < t2.length := by
                have hd := length_dropWhile_le Char.isDigit t2
                rw [heq2] at hd
                simp only [List.length_cons] at hd
                omega
              simp only [List.length_cons]
              omega
            next =>
              injection h with h1e
              injection h1e with hg hr
              subst hr
              simp only [List.length_cons]
              omega
        next => exact absurd h (by simp)
    · exact absurd h (by simp)

theorem a2Tail_length {mid rest r : List Char} {g : UGroups}
    (h : a2Tail mid rest = some (g, r)) : r.length + 2 ≤ rest.length := by
  simp only [a2Tail] at h
  split at h
  next r2 =>
    split at h
    · exact absurd h (by simp)
    · injection h with h1e
      injection h1e with hg hr
      subst hr
      have hd := length_dropWhile_le Char.isDigit r2
      simp only [List.length_cons]
      omega
  next => exact absurd h (by simp)

theorem tryA2_length {s r : List Char} {g : UGroups}
    (h : tryA2 s = some (g, r)) : r.length < s.length := by
  match s with
  | [] => simp [tryA2] at h
  | c :: t =>
    simp only [tryA2] at h
    split at h
    · obtain ⟨p, hp, hap⟩ := firstSome_mem h
      obtain ⟨hps, _⟩ := gsplits_mem hp
      have := a2Tail_length hap
      have hlen : t.length = p.1.length + p.2.length := by
        rw [hps]; simp
      simp only [List.length_cons]
      omega
    · exact absurd h (by simp)

theorem tryA3_length {s r : List Char} {g : UGroups}
    (h : tryA3 s = some (g, r)) : r.length < s.length := by
  match s with
  | [] => simp [tryA3] at h
  | c :: t =>
    simp only [tryA3] at h
    split at h
    · split at h
      · exact absurd h (by simp)
      · split at h
        next t2 heq =>
          injection h with h1e
          injection h1e with hg hr
          subst hr
          have hd := length_dropWhile_le Char.isDigit t
          rw [heq] at hd
          simp only [List.length_cons] at hd
          simp only [List.length_cons]
          omega
        next => exact absurd h (by simp)
    · exact absurd h (by simp)

theorem tryMatch_length {s r : List Char} {g : UGroups}
    (h : tryMatch s = some (g, r)) : r.length < s.length := by
  unfold tryMatch at h
  cases h1 : tryA1 s with
  | some p =>
    rw [h1] at h
    simp only [Option.some.injEq] at h
    obtain ⟨g1, r1⟩ := p
    cases h
    exact tryA1_length h1
  | none =>
    rw [h1] at h
    cases h2 : tryA2 s with
    | some p =>
      rw [h2] at h
      simp only [Option.some.injEq] at h
      obtain ⟨g2, r2⟩ := p
      cases h
      exact tryA2_length h2
    | none =>
      rw [h2] at h
      exact tryA3_length h

theorem tryMatch_nil : tryMatch [] = none := rfl

theorem subAux_congr (t : Tmpl) :
    ∀ f1 f2 : Nat, ∀ s : List Char, s.length ≤ f1 → s.length ≤ f2 →
      subAux t f1 s = subAux t f2 s := by
  intro f1
  induction f1 with
  | zero =>
    intro f2 s h1 h2
    have hs : s = [] := List.eq_nil_of_length_eq_zero (Nat.le_zero.mp h1)
    subst hs
    cases f2 <;> simp [subAux]
  | succ f1 ih =>
    intro f2 s h1 h2
    match s, f2 with
    | [], f2 => cases f2 <;> simp [subAux]
    | c :: tl, 0 => simp at h2
    | c :: tl, f2 + 1 =>
      cases hm : tryMatch (c :: tl) with
      | some gr =>
        obtain ⟨g, r⟩ := gr
        have hl := tryMatch_length hm
        simp only [subAux, hm]
        simp only [List.length_cons] at h1 h2
        simp only [List.length_cons] at hl
        congr 1
        exact ih f2 r (by omega) (by omega)
      | none =>
        simp only [subAux, hm]
        simp only [List.length_cons] at h1 h2
        congr 1
        exact ih f2 tl (by omega) (by omega)

theorem subU_eq_subAux (t : Tmpl) (f : Nat) (s : List Char)
    (h : s.length ≤ f) : subAux t f s = subU t s := by
  unfold subU
  exact subAux_congr t f s.length s h (Nat.le_refl _)

theorem subU_cons_of_match {c : Char} {tl r : List Char} {g : UGroups}
    (t : Tmpl) (h : tryMatch (c :: tl) = some (g, r)) :
    subU t (c :: tl) = applyTmpl t g ++ subU t r := by
  have hl := tryMatch_length h
  simp only [List.length_cons] at hl
  unfold subU
  simp only [List.length_cons, subAux, h]
  congr 1
  exact subAux_congr t tl.length r.length r (by omega) (Nat.le_refl _)

theorem subU_cons_of_none {c : Char} {tl : List Char}
    (t : Tmpl) (h : tryMatch (c :: tl) = none) :
    subU t (c :: tl) = c :: subU t tl := by
  unfold subU
  simp only [List.length_cons, subAux, h]

theorem searchU_cons_of_none {c : Char} {tl : List Char}
    (h : tryMatch (c :: tl) = none) : searchU (c :: tl) = searchU tl := by
  simp [searchU, h]

theorem tryMatch_cons_of_ne {c : Char} {s : List Char}
    (h1 : c ≠ ':') (h2 : c ≠ '"') (h3 : c ≠ '(') :
    tryMatch (c :: s) = none := by
  simp [tryMatch, tryA1, tryA2, tryA3, h1, h2, h3]

theorem subU_append_of_tailsAllFail (t : Tmpl) :
    ∀ u v : List Char, tailsAllFail v u = true →
      subU t (u ++ v) = u ++ subU t v := by
  intro u
  induction u with
  | nil => intro v _; simp
  | cons c u' ih =>
    intro v h
    simp only [tailsAllFail, Bool.and_eq_true, Option.isNone_iff_eq_none] at h
    rw [List.cons_append, subU_cons_of_none t h.1, ih v h.2]
    simp

theorem tryMatch_digit_cons {c : Char} {s : List Char}
    (h : c.isDigit = true) : tryMatch (c :: s) = none := by
  apply tryMatch_cons_of_ne
  · intro he; rw [he] at h; exact absurd h (by decide)
  · intro he; rw [he] at h; exact absurd h (by decide)
  · intro he; rw [he] at h; exact absurd h (by decide)

theorem searchU_digits_skip :
    ∀ (l : List Char), l.all Char.isDigit = true →
      ∀ s, searchU (l ++ s) = searchU s := by
  intro l
  induction l with
  | nil => intro _ s; simp
  | cons c l' ih =>
    intro h s
    simp only [List.all_cons, Bool.and_eq_true] at h
    rw [List.cons_append, searchU_cons_of_none (tryMatch_digit_cons h.1), ih h.2 s]

theorem takeWhile_append_of_all {p : Char → Bool} :
    ∀ {l : List Char}, l.all p = true →
      ∀ r, (l ++ r).takeWhile p = l ++ r.takeWhile p := by
  intro l
  induction l with
  | nil => intro _ r; simp
  | cons c t ih =>
    intro h r
    simp only [List.all_cons, Bool.and_eq_true] at h
    simp [List.takeWhile_cons, h.1, ih h.2]

theorem dropWhile_append_of_all {p : Char → Bool} :
    ∀ {l : List Char}, l.all p = true →
      ∀ r, (l ++ r).dropWhile p = r.dropWhile p := by
  intro l
  induction l with
  | nil => intro _ r; simp
  | cons c t ih =>
    intro h r
    simp only [List.all_cons, Bool.and_eq_true] at h
    simp [List.dropWhile_cons, h.1, ih h.2]

theorem tryMatch_paren_digits_comma {l : List Char} (tail : List Char)
    (hl : l.all Char.isDigit = true) :
    tryMatch ('(' :: (l ++ (',' :: tail))) = none := by
  simp only [tryMatch, tryA1, tryA2, tryA3]
  simp only [show ('(' : Char) ≠ ':' by decide, show ('(' : Char) ≠ '"' by decide,
    if_neg, if_pos, reduceIte]
  rw [takeWhile_append_of_all hl, dropWhile_append_of_all hl]
  simp [List.takeWhile_cons, List.dropWhile_cons]

theorem tryMatch_paren_digits_close {l : List Char} (tail : List Char)
    (hl : l.all Char.isDigit = true) :
    tryMatch ('(' :: (l ++ (')' :: ':' :: tail))) = none := by
  simp only [tryMatch, tryA1, tryA2, tryA3]
  simp only [show ('(' : Char) ≠ ':' by decide, show ('(' : Char) ≠ '"' by decide,
    if_neg, if_pos, reduceIte]
  rw [takeWhile_append_of_all hl, dropWhile_append_of_all hl]
  simp [List.takeWhile_cons, List.dropWhile_cons]

theorem isPrefixOf_self_append (x b : List Char) : x.isPrefixOf (x ++ b) = true :=
  List.isPrefixOf_iff_prefix.mpr (List.prefix_append x b)

theorem containsSub_middle (x a b : List Char) :
    containsSub x (a ++ (x ++ b)) = true := by
  induction a with
  | nil =>
    simp only [List.nil_append]
    cases hxb : x ++ b with
    | nil =>
      have hx : x = [] := (List.append_eq_nil.mp hxb).1
      simp [containsSub, hx]
    | cons c tl =>
      rw [containsSub, ← hxb, isPrefixOf_self_append]
      simp
  | cons a0 a' ih =>
    simp [List.cons_append, containsSub, ih]

theorem match_severity_cases (l : List Char) :
    match_severity l = Severity.ignore ∨ match_severity l = Severity.note ∨
      match_severity l = Severity.warning ∨ match_severity l = Severity.error := by
  simp only [match_severity]
  split
  · exact Or.inr (Or.inl rfl)
  · split
    · exact Or.inr (Or.inr (Or.inl rfl))
    · split
      · exact Or.inr (Or.inr (Or.inr rfl))
      · exact Or.inl rfl

theorem step_behind_stitch (cfg : Config) (ls : LoopState) (raw : List Char)
    (h1 : cfg.option_multi_line ≠ 0) (h2 : ls.severity > Severity.ignore)
    (h3 : match_severity (stripNl raw) = Severity.ignore)
    (h4 : (stripNl raw).head? = some ' ')
    (h5 : pyIsSpaceAll (stripNl raw) = false) :
    (step cfg ls raw).st.result_list
      = ls.st.result_list ++ [(ls.severity + Severity.offset_behind, stripNl raw)] ∧
    (step cfg ls raw).severity = ls.severity := by
  simp only [step]
  rw [if_pos ⟨h1, h2, h3, h4, h5⟩]
  exact ⟨rfl, rfl⟩

theorem step_ignore_no_stitch (cfg : Config) (ls : LoopState) (raw : List Char)
    (h3 : match_severity (stripNl raw) = Severity.ignore)
    (hns : ¬(cfg.option_multi_line ≠ 0 ∧ ls.severity > Severity.ignore ∧
        match_severity (stripNl raw) = Severity.ignore ∧
        (stripNl raw).head? = some ' ' ∧ pyIsSpaceAll (stripNl raw) = false)) :
    (step cfg ls raw).st.result_list = ls.st.result_list ∧
    (step cfg ls raw).severity = Severity.ignore := by
  simp only [step]
  rw [if_neg hns, if_neg (by rw [h3]; exact lt_irrefl _)]
  exact ⟨rfl, h3⟩

theorem append_result_list_rl (cfg : Config) (st : JState) (sev : Nat)
    (lp lb : List Char) :
    (append_result_list cfg st sev lp lb).1.result_list = st.result_list ∨
    (append_result_list cfg st sev lp lb).1.result_list
      = st.result_list
        ++ (if cfg.option_multi_line ≠ 0 ∧ lb.isEmpty = false
            then [(sev + Severity.offset_before, lb)] else [])
        ++ [(sev, resolved_line cfg lp)] := by
  simp only [append_result_list]
  split
  · left; rfl
  · right
    split
    next hcond => simp [if_pos hcond]
    next hcond => simp [if_neg hcond]

theorem step_mem_multi0 (cfg : Config) (ls : LoopState) (raw : List Char)
    (hm : cfg.option_multi_line = 0) :
    ∀ e, e ∈ (step cfg ls raw).st.result_list →
      e ∈ ls.st.result_list ∨ e.1 = Severity.note ∨ e.1 = Severity.warning ∨
        e.1 = Severity.error := by
  intro e he
  have hns : ¬(cfg.option_multi_line ≠ 0 ∧ ls.severity > Severity.ignore ∧
      match_severity (stripNl raw) = Severity.ignore ∧
      (stripNl raw).head? = some ' ' ∧ pyIsSpaceAll (stripNl raw) = false) :=
    fun hco => hco.1 hm
  have hbase : match_severity (stripNl raw) > Severity.ignore →
      match_severity (stripNl raw) = Severity.note ∨
      match_severity (stripNl raw) = Severity.warning ∨
      match_severity (stripNl raw) = Severity.error := by
    intro hgt
    rcases match_severity_cases (stripNl raw) with h | h | h | h
    · rw [h] at hgt; exact absurd hgt (lt_irrefl _)
    · exact Or.inl h
    · exact Or.inr (Or.inl h)
    · exact Or.inr (Or.inr h)
  simp only [step] at he
  rw [if_neg hns] at he
  by_cases hsev : match_severity (stripNl raw) > Severity.ignore
  · rw [if_pos hsev] at he
    have key : ∀ lp lb : List Char,
        e ∈ (append_result_list cfg
              { ls.st with cnt_lines := ls.st.cnt_lines + 1 }
              (match_severity (stripNl raw)) lp lb).1.result_list →
        e ∈ ls.st.result_list ∨ e.1 = Severity.note ∨ e.1 = Severity.warning ∨
          e.1 = Severity.error := by
      intro lp lb hmem
      rcases append_result_list_rl cfg
          { ls.st with cnt_lines := ls.st.cnt_lines + 1 }
          (match_severity (stripNl raw)) lp lb with hrl | hrl
      · rw [hrl] at hmem
        exact Or.inl hmem
      · rw [hrl] at hmem
        rw [if_neg (fun hco => hco.1 hm)] at hmem
        simp only [List.append_nil, List.mem_append, List.mem_singleton] at hmem
        rcases hmem with hmem | hmem
        · exact Or.inl hmem
        · rw [hmem]
          exact Or.inr (hbase hsev)
    split at he
    · exact key _ _ he
    · split at he
      · exact key _ _ he
      · exact key _ _ he
  · rw [if_neg hsev] at he
    exact Or.inl he

theorem processFrom_error (cfg : Config) :
    ∀ (pre : List (Option (List Char))) (ls : LoopState)
      (post : List (Option (List Char))),
      processFrom cfg ls (pre ++ none :: post)
        = Except.error (exit_fail_decode, decode_error_message cfg) := by
  intro pre
  induction pre with
  | nil => intro ls post; rfl
  | cons a pre' ih =>
    intro ls post
    cases a with
    | none => rfl
    | some raw =>
      rw [List.cons_append]
      simp only [processFrom]
      exact ih (step cfg ls raw) post

theorem process_mem_multi0 (cfg : Config) (hm : cfg.option_multi_line = 0) :
    ∀ (lines : List (List Char)) (ls : LoopState),
      (∀ e, e ∈ ls.st.result_list →
        e.1 = Severity.note ∨ e.1 = Severity.warning ∨ e.1 = Severity.error) →
      ∀ e, e ∈ (lines.foldl (step cfg) ls).st.result_list →
        e.1 = Severity.note ∨ e.1 = Severity.warning ∨ e.1 = Severity.error := by
  intro lines
  induction lines with
  | nil => intro ls hls e he; exact hls e he
  | cons raw rest ih =>
    intro ls hls e he
    refine ih (step cfg ls raw) ?_ e he
    intro e2 he2
    rcases step_mem_multi0 cfg ls raw hm e2 he2 with h | h
    · exact hls e2 h
    · exact h

/-! ## The greedy path-resolution matcher on well-formed lines -/

theorem firstSome_ne_none_of_mem {α β : Type} {f : α → Option β} :
    ∀ {l : List α} {a : α}, a ∈ l → f a ≠ none →
      firstSome f l ≠ none := by
  intro l
  induction l with
  | nil => intro a h _; simp at h
  | cons x l ih =>
    intro a hmem hfa
    simp only [firstSome]
    cases hfx : f x with
    | some c => simp
    | none =>
      rcases List.mem_cons.mp hmem with rfl | hmem2
      · exact absurd hfx hfa
      · exact ih hmem2 hfa

theorem mem_splits_self : ∀ (l1 l2 : List Char), (l1, l2) ∈ splits (l1 ++ l2) := by
  intro l1
  induction l1 with
  | nil => intro l2; cases l2 <;> simp [splits]
  | cons c t ih =>
    intro l2
    simp only [List.cons_append, splits, List.mem_cons, List.mem_map]
    right
    exact ⟨(t, l2), ih l2, rfl⟩

theorem mem_gsplits_self (l1 l2 : List Char) (h1 : l1 ≠ [])
    (h2 : '\n' ∉ l1) : (l1, l2) ∈ gsplits (l1 ++ l2) := by
  unfold gsplits
  rw [List.mem_reverse, List.mem_filter]
  refine ⟨mem_splits_self l1 l2, ?_⟩
  simp [h1, h2]

theorem append_cons_cross {x : Char} :
    ∀ (a c b d : List Char), a ++ x :: b = c ++ x :: d →
      (a = c ∧ b = d) ∨
      (∃ m, c = a ++ x :: m ∧ b = m ++ x :: d) ∨
      (∃ m, a = c ++ x :: m ∧ d = m ++ x :: b) := by
  intro a
  induction a with
  | nil =>
    intro c b d h
    cases c with
    | nil =>
      simp only [List.nil_append] at h
      injection h with _ h2
      exact Or.inl ⟨rfl, h2⟩
    | cons y c' =>
      simp only [List.nil_append, List.cons_append] at h
      injection h with h1 h2
      exact Or.inr (Or.inl ⟨c', by rw [← h1]; simp, h2⟩)
  | cons z a' ih =>
    intro c b d h
    cases c with
    | nil =>
      simp only [List.nil_append, List.cons_append] at h
      injection h with h1 h2
      exact Or.inr (Or.inr ⟨a', by rw [h1]; simp, h2.symm⟩)
    | cons y c' =>
      simp only [List.cons_append] at h
      injection h with h1 h2
      subst h1
      rcases ih c' b d h2 with ⟨he1, he2⟩ | ⟨m, hm1, hm2⟩ | ⟨m, hm1, hm2⟩
      · exact Or.inl ⟨by rw [he1], he2⟩
      · exact Or.inr (Or.inl ⟨m, by rw [hm1]; simp, hm2⟩)
      · exact Or.inr (Or.inr ⟨m, by rw [hm1]; simp, hm2⟩)

theorem append_cons2_cross {x y : Char} (hxy : x ≠ y) :
    ∀ (a c b d : List Char), a ++ x :: y :: b = c ++ x :: y :: d →
      (a = c ∧ b = d) ∨
      (∃ m, c = a ++ x :: y :: m ∧ b = m ++ x :: y :: d) ∨
      (∃ m, a = c ++ x :: y :: m ∧ d = m ++ x :: y :: b) := by
  intro a
  induction a with
  | nil =>
    intro c b d h
    cases c with
    | nil =>
      simp only [List.nil_append] at h
      injection h with _ h2
      injection h2 with _ h3
      exact Or.inl ⟨rfl, h3⟩
    | cons z c' =>
      simp only [List.nil_append, List.cons_append] at h
      injection h with h1 h2
      cases c' with
      | nil =>
        simp only [List.nil_append] at h2
        injection h2 with h3 _
        exact absurd h3.symm hxy
      | cons u c'' =>
        simp only [List.cons_append] at h2
        injection h2 with h3 h4
        refine Or.inr (Or.inl ⟨c'', ?_, h4⟩)
        rw [← h1, ← h3]
        simp
  | cons z a' ih =>
    intro c b d h
    cases c with
    | nil =>
      simp only [List.nil_append, List.cons_append] at h
      injection h with h1 h2
      cases a' with
      | nil =>
        simp only [List.nil_append] at h2
        injection h2 with h3 _
        exact absurd h3 hxy
      | cons u a'' =>
        simp only [List.cons_append] at h2
        injection h2 with h3 h4
        refine Or.inr (Or.inr ⟨a'', ?_, h4.symm⟩)
        rw [h1, h3]
        simp
    | cons w c' =>
      simp only [List.cons_append] at h
      injection h with h1 h2
      subst h1
      rcases ih c' b d h2 with ⟨he1, he2⟩ | ⟨m, hm1, hm2⟩ | ⟨m, hm1, hm2⟩
      · exact Or.inl ⟨by rw [he1], he2⟩
      · exact Or.inr (Or.inl ⟨m, by rw [hm1]; simp, hm2⟩)
      · exact Or.inr (Or.inr ⟨m, by rw [hm1]; simp, hm2⟩)

theorem containsSub_two_intro (x y : Char) (u v : List Char) :
    containsSub (x :: y :: []) (u ++ x :: y :: v) = true := by
  have h := containsSub_middle (x :: y :: []) u v
  simpa using h

theorem containsSub_cons_of_head_ne {x : Char} {n : List Char} :
    ∀ {l : List Char}, x ∉ l → containsSub (x :: n) l = false := by
  intro l
  induction l with
  | nil => intro _; rfl
  | cons c t ih =>
    intro h
    have hc : ¬ x = c := fun he => h (by rw [he]; exact List.mem_cons_self c t)
    simp only [containsSub, Bool.or_eq_false_iff]
    constructor
    · simp [List.isPrefixOf, hc]
    · exact ih (fun hx => h (List.mem_cons_of_mem c hx))

theorem containsSub_two_append_false {x y : Char} :
    ∀ (l r : List Char), containsSub (x :: y :: []) l = false →
      containsSub (x :: y :: []) r = false →
      (l.getLast? = some x → r.head? ≠ some y) →
      containsSub (x :: y :: []) (l ++ r) = false := by
  intro l
  induction l with
  | nil => intro r _ hr _; simpa using hr
  | cons c l' ih =>
    intro r hl hr hb
    simp only [containsSub, Bool.or_eq_false_iff] at hl
    obtain ⟨hlp, hlt⟩ := hl
    rw [List.cons_append]
    simp only [containsSub, Bool.or_eq_false_iff]
    constructor
    · cases l' with
      | nil =>
        simp only [List.nil_append]
        by_cases hcx : x = c
        · subst hcx
          have hhead := hb (by simp)
          cases r with
          | nil => simp [List.isPrefixOf]
          | cons d r' =>
            have hdy : ¬ y = d := by
              intro he
              exact hhead (by rw [List.head?_cons, he])
            simp [List.isPrefixOf, hdy]
        · simp [List.isPrefixOf, hcx]
      | cons c2 l'' =>
        simp only [List.cons_append]
        simp only [List.isPrefixOf] at hlp ⊢
        simpa using hlp
    · refine ih r hlt hr ?_
      intro hlast
      apply hb
      cases l' with
      | nil => simp at hlast
      | cons c2 l'' =>
        rw [List.getLast?_cons_cons]
        exact hlast

theorem noSub_fn_paren_loc (fn loc : List Char)
    (hfn : containsSub (')' :: ':' :: []) fn = false)
    (hloc : ')' ∉ loc) :
    containsSub (')' :: ':' :: []) (fn ++ '(' :: loc) = false := by
  refine containsSub_two_append_false fn ('(' :: loc) hfn ?_ ?_
  · simp only [containsSub, Bool.or_eq_false_iff]
    exact ⟨by simp [List.isPrefixOf], containsSub_cons_of_head_ne hloc⟩
  · intro _
    simp

theorem absLevel3_sound {g1 b2 a b c : List Char}
    (h : absLevel3 g1 b2 = some (a, b, c)) :
    ∃ w : List Char, a = g1 ∧ b = '(' :: (w ++ [')']) ∧
      b2 = w ++ ')' :: ':' :: c ∧ w ≠ [] := by
  unfold absLevel3 at h
  obtain ⟨w, hw, hfw⟩ := firstSome_mem h
  obtain ⟨hws, hwne⟩ := gsplits_mem hw
  split at hfw
  next c3 c4 rest0 heq3 =>
    split at hfw
    next hc34 =>
      injection hfw with hfw2
      injection hfw2 with hg1 hfw3
      injection hfw3 with hg4 hrest
      refine ⟨w.1, hg1.symm, hg4.symm, ?_, hwne⟩
      rw [hws, heq3, hc34.1, hc34.2, hrest]
    next => cases hfw
  next => cases hfw

theorem absLevel3_exists (g1 loc rest : List Char) (hloc : loc ≠ [])
    (hn3 : '\n' ∉ loc) :
    absLevel3 g1 (loc ++ ')' :: ':' :: rest) ≠ none := by
  unfold absLevel3
  exact firstSome_ne_none_of_mem
    (mem_gsplits_self loc (')' :: ':' :: rest) hloc hn3) (by simp)

theorem absLevel2_sound {g2 b1 a b c : List Char}
    (h : absLevel2 g2 b1 = some (a, b, c)) :
    ∃ g3 w : List Char, a = g2 ++ '.' :: g3 ∧ b = '(' :: (w ++ [')']) ∧
      b1 = g3 ++ '(' :: (w ++ ')' :: ':' :: c) ∧ g3 ≠ [] ∧ w ≠ [] := by
  unfold absLevel2 at h
  obtain ⟨r, hr, hfr⟩ := firstSome_mem h
  obtain ⟨hrs, hrne⟩ := gsplits_mem hr
  split at hfr
  next heq2 => cases hfr
  next c2 b2 heq2 =>
    split at hfr
    next hc2 =>
      obtain ⟨w, ha, hb, hb2, hwne⟩ := absLevel3_sound hfr
      refine ⟨r.1, w, ha, hb, ?_, hrne, hwne⟩
      rw [hrs, heq2, hc2, hb2]
    next => cases hfr

theorem absLevel2_exists (g2 p2 loc rest : List Char) (hp2 : p2 ≠ [])
    (hloc : loc ≠ []) (hn2 : '\n' ∉ p2) (hn3 : '\n' ∉ loc) :
    absLevel2 g2 (p2 ++ '(' :: (loc ++ ')' :: ':' :: rest)) ≠ none := by
  unfold absLevel2
  refine firstSome_ne_none_of_mem
    (mem_gsplits_self p2 ('(' :: (loc ++ ')' :: ':' :: rest)) hp2 hn2) ?_
  simpa using absLevel3_exists (g2 ++ '.' :: p2) loc rest hloc hn3

theorem absMatch_sound {line g1 g4 rest : List Char}
    (h : absMatch line = some (g1, g4, rest)) :
    ∃ g2 g3 w : List Char, g1 = g2 ++ '.' :: g3 ∧ g4 = '(' :: (w ++ [')']) ∧
      line = g2 ++ '.' :: (g3 ++ '(' :: (w ++ ')' :: ':' :: rest)) ∧
      g2 ≠ [] ∧ g3 ≠ [] ∧ w ≠ [] := by
  unfold absMatch at h
  obtain ⟨q, hq, hfq⟩ := firstSome_mem h
  obtain ⟨hqs, hqne⟩ := gsplits_mem hq
  split at hfq
  next heq1 => cases hfq
  next c1 b1 heq1 =>
    split at hfq
    next hc1 =>
      obtain ⟨g3, w, ha, hb, hb1, hg3ne, hwne⟩ := absLevel2_sound hfq
      refine ⟨q.1, g3, w, ha, hb, ?_, hqne, hg3ne, hwne⟩
      rw [hqs, heq1, hc1, hb1]
    next => cases hfq

theorem absMatch_exists (p1 p2 loc rest : List Char) (hp1 : p1 ≠ [])
    (hp2 : p2 ≠ []) (hloc : loc ≠ []) (hn1 : '\n' ∉ p1) (hn2 : '\n' ∉ p2)
    (hn3 : '\n' ∉ loc) :
    absMatch (p1 ++ '.' :: (p2 ++ '(' :: (loc ++ ')' :: ':' :: rest)))
      ≠ none := by
  unfold absMatch
  refine firstSome_ne_none_of_mem
    (mem_gsplits_self p1 ('.' :: (p2 ++ '(' :: (loc ++ ')' :: ':' :: rest)))
      hp1 hn1) ?_
  simpa using absLevel2_exists p1 p2 loc rest hp2 hloc hn2 hn3

theorem absMatch_structured (p1 p2 loc rest : List Char)
    (hp1 : p1 ≠ []) (hp2 : p2 ≠ []) (hloc : loc ≠ [])
    (hn1 : '\n' ∉ p1) (hn2 : '\n' ∉ p2) (hn3 : '\n' ∉ loc)
    (ho1 : '(' ∉ p1) (ho2 : '(' ∉ p2) (ho3 : '(' ∉ loc) (hc3 : ')' ∉ loc)
    (hfn : containsSub (')' :: ':' :: []) (p1 ++ '.' :: p2) = false)
    (hrest : containsSub (')' :: ':' :: []) rest = false) :
    absMatch ((p1 ++ '.' :: p2) ++ '(' :: (loc ++ ')' :: ':' :: rest))
      = some (p1 ++ '.' :: p2, '(' :: (loc ++ [')']), rest) := by
  have hexpand :
      (p1 ++ '.' :: p2) ++ '(' :: (loc ++ ')' :: ':' :: rest)
        = p1 ++ '.' :: (p2 ++ '(' :: (loc ++ ')' :: ':' :: rest)) := by
    simp
  have hne : absMatch ((p1 ++ '.' :: p2) ++ '(' :: (loc ++ ')' :: ':' :: rest))
      ≠ none := by
    rw [hexpand]
    exact absMatch_exists p1 p2 loc rest hp1 hp2 hloc hn1 hn2 hn3
  obtain ⟨y, hy⟩ := Option.ne_none_iff_exists'.mp hne
  obtain ⟨ya, yb, yc⟩ := y
  obtain ⟨g2, g3, w, hg1, hg4, hline, hg2ne, hg3ne, hwne⟩ := absMatch_sound hy
  have hEline : ((g2 ++ '.' :: g3) ++ '(' :: w) ++ ')' :: ':' :: yc
      = ((p1 ++ '.' :: p2) ++ '(' :: loc) ++ ')' :: ':' :: rest := by
    have h2 : (p1 ++ '.' :: p2) ++ '(' :: (loc ++ ')' :: ':' :: rest)
        = ((p1 ++ '.' :: p2) ++ '(' :: loc) ++ ')' :: ':' :: rest := by simp
    rw [← h2, hline]
    simp
  rcases append_cons2_cross (show (')' : Char) ≠ ':' by decide) _ _ _ _ hEline
    with ⟨hA, hR⟩ | ⟨m, hm1, _⟩ | ⟨m, _, hm2⟩
  · rcases append_cons_cross _ _ _ _ hA with ⟨hF, hW⟩ | ⟨m, hm1, _⟩ | ⟨m, _, hm2⟩
    · rw [hy, hg1, hg4, hF, hW, hR]
    · exfalso
      have hmem : '(' ∈ (g2 ++ '.' :: g3) ++ '(' :: m := by simp
      rw [← hm1] at hmem
      simp only [List.mem_append, List.mem_cons] at hmem
      rcases hmem with h | h | h
      · exact ho1 h
      · exact absurd h (by decide)
      · exact ho2 h
    · exfalso
      have hmem : '(' ∈ m ++ '(' :: w := by simp
      rw [← hm2] at hmem
      exact ho3 hmem
  · exfalso
    have htrue := containsSub_two_intro ')' ':' ((g2 ++ '.' :: g3) ++ '(' :: w) m
    rw [← hm1] at htrue
    have hfalse := noSub_fn_paren_loc (p1 ++ '.' :: p2) loc hfn hc3
    rw [hfalse] at htrue
    cases htrue
  · exfalso
    have htrue := containsSub_two_intro ')' ':' m yc
    rw [← hm2] at htrue
    rw [hrest] at htrue
    cases htrue

/-! ## The claims -/

/-- Claim C1: the location rewriter maps each of the four dialect
examples to its canonical form; the rewritten line contains exactly the
canonical `path(line,column):` / `path(line):` group (the full outputs
are also pinned down). -/
theorem C1_dialect_examples :
    match_line_and_column ("file.c:124:43: warning: x".data)
        = ("file.c(124,43): warning: x".data) ∧
    containsSub ("file.c(124,43):".data)
        (match_line_and_column ("file.c:124:43: warning: x".data)) = true ∧
    match_line_and_column ("file.c:124: warning: x".data)
        = ("file.c(124): warning: x".data) ∧
    containsSub ("file.c(124):".data)
        (match_line_and_column ("file.c:124: warning: x".data)) = true ∧
    match_line_and_column ("\"c:/f.c\",276  Warning[Pe177]: x".data)
        = ("c:/f.c(276):  Warning[Pe177]: x".data) ∧
    containsSub ("c:/f.c(276):".data)
        (match_line_and_column ("\"c:/f.c\",276  Warning[Pe177]: x".data)) = true ∧
    match_line_and_column ("c:\\t\\f.h(43) : Warning[Pe1105]: x".data)
        = ("c:\\t\\f.h(43): Warning[Pe1105]: x".data) ∧
    containsSub ("c:\\t\\f.h(43):".data)
        (match_line_and_column ("c:\\t\\f.h(43) : Warning[Pe1105]: x".data)) = true := by
  refine ⟨by decide, by decide, by decide, by decide, by decide, by decide,
    by decide, by decide⟩

/-- Claim C3 (code bug): a context-banner line immediately followed by a
diagnostic line, under before-mode (`--multi 1`), produces no
`OffsetBefore`-tagged entry at all: the loop recomputes `line_before`
from the current line before appending, so the banner seen on the
previous line has already been cleared.  The banner is seen
(`bannerSearch` is true), the next line is a diagnostic, yet the Entry
sequence holds only the primary entry. -/
theorem C3_before_entry_missing :
    bannerSearch ("f.c: In function 'main':".data) = true ∧
    match_severity ("f.c:1:2: error: x".data) = Severity.error ∧
    (process ⟨1, false, none, []⟩
        [("f.c: In function 'main':".data), ("f.c:1:2: error: x".data)]).st.result_list
      = [(Severity.error, ("f.c(1,2): error: x".data))] := by
  refine ⟨by decide, by decide, by decide⟩

/-- Claim C5 (counterexample): on a line with two occurrences of the
union pattern the rewriter does not leave the later occurrence
unchanged — `re.sub` rewrites it as well. -/
theorem C5_second_match_also_rewritten :
    match_line_and_column ("a.c:1:2: x y:3:4: z".data)
        = ("a.c(1,2): x y(3,4): z".data) ∧
    ¬ match_line_and_column ("a.c:1:2: x y:3:4: z".data)
        = ("a.c(1,2): x y:3:4: z".data) := by
  refine ⟨by decide, by decide⟩

/-- Claim C8 (counterexample): a successful rewrite can produce an
output of the canonical form `path(L,C):` followed by a remainder on
which `rewrite` matches again (the inserted colon is juxtaposed with
digits of the remainder), so `rewrite` on its own output is not empty
there and the line is rewritten again. -/
theorem C8_not_idempotent :
    match_line_and_column ("a:1:2:3: x".data) = ("a(1,2):3: x".data) ∧
    match_line_and_column ("a(1,2):3: x".data) = ("a(1,2)(3): x".data) ∧
    ¬ match_line_and_column ("a(1,2):3: x".data) = [] := by
  refine ⟨by decide, by decide, by decide⟩

/-- Claim C2 (counterexample): a line containing none of the severity
markers does appear in the output Entry sequence under a multi-line
configuration — the behind-stitch records it with an OffsetBehind tag. -/
theorem C2_ignore_line_recorded :
    hasMarker (" x".data) = false ∧
    match_severity (" x".data) = Severity.ignore ∧
    (Severity.error + Severity.offset_behind, (" x".data))
      ∈ (process ⟨2, false, none, []⟩
          [("a error: b".data), (" x".data)]).st.result_list := by
  refine ⟨by decide, by decide, by decide⟩

/-- Claim C2 (amended): a line with no severity marker classifies as
Ignore; with multi-line mode off, processing it never grows the Entry
sequence; under any configuration, processing it either leaves the
Entry sequence unchanged or appends the line once as an
OffsetBehind-tagged continuation entry (previous severity plus
OffsetBehind) — never as a primary entry. -/
theorem C2_ignore_amended :
    (∀ line : List Char, hasMarker line = false →
        match_severity line = Severity.ignore) ∧
    (∀ (cfg : Config) (ls : LoopState) (raw : List Char),
        cfg.option_multi_line = 0 →
        match_severity (stripNl raw) = Severity.ignore →
        (step cfg ls raw).st.result_list = ls.st.result_list) ∧
    (∀ (cfg : Config) (ls : LoopState) (raw : List Char),
        match_severity (stripNl raw) = Severity.ignore →
        (step cfg ls raw).st.result_list = ls.st.result_list ∨
        ((step cfg ls raw).st.result_list
            = ls.st.result_list
              ++ [(ls.severity + Severity.offset_behind, stripNl raw)] ∧
         cfg.option_multi_line ≠ 0 ∧ ls.severity > Severity.ignore)) := by
  refine ⟨?_, ?_, ?_⟩
  · intro line h
    simp only [hasMarker, severityMarkers, List.any_cons, List.any_nil,
      Bool.or_eq_false_iff] at h
    obtain ⟨h1, h2, h3, h4, h5, h6, h7, h8⟩ := h
    simp [match_severity, h1, h2, h3, h4, h5, h6, h7, h8]
  · intro cfg ls raw hm hsev
    exact (step_ignore_no_stitch cfg ls raw hsev (fun hco => hco.1 hm)).1
  · intro cfg ls raw hsev
    by_cases hco : cfg.option_multi_line ≠ 0 ∧ ls.severity > Severity.ignore ∧
        match_severity (stripNl raw) = Severity.ignore ∧
        (stripNl raw).head? = some ' ' ∧ pyIsSpaceAll (stripNl raw) = false
    · right
      exact ⟨(step_behind_stitch cfg ls raw hco.1 hco.2.1 hco.2.2.1
          hco.2.2.2.1 hco.2.2.2.2).1, hco.1, hco.2.1⟩
    · left
      exact (step_ignore_no_stitch cfg ls raw hsev hco).1

/-- Witness for C2_ignore_amended at concrete inputs. -/
theorem C2_ignore_amended_witness :
    (hasMarker (" x".data) = false ∧
     match_severity (" x".data) = Severity.ignore) ∧
    (match_severity (stripNl (" x".data)) = Severity.ignore ∧
     (step ⟨0, false, none, []⟩ ⟨initState, Severity.error, []⟩
        (" x".data)).st.result_list = initState.result_list) ∧
    ((step ⟨2, false, none, []⟩ ⟨initState, Severity.error, []⟩
        (" x".data)).st.result_list = initState.result_list ∨
     ((step ⟨2, false, none, []⟩ ⟨initState, Severity.error, []⟩
        (" x".data)).st.result_list
        = initState.result_list
          ++ [(Severity.error + Severity.offset_behind, stripNl (" x".data))] ∧
      (2 : Nat) ≠ 0 ∧ Severity.error > Severity.ignore)) :=
  ⟨⟨by decide, C2_ignore_amended.1 _ (by decide)⟩,
   ⟨by decide, C2_ignore_amended.2.1 ⟨0, false, none, []⟩
      ⟨initState, Severity.error, []⟩ (" x".data) rfl (by decide)⟩,
   C2_ignore_amended.2.2 ⟨2, false, none, []⟩
      ⟨initState, Severity.error, []⟩ (" x".data) (by decide)⟩

/-- Claim C4 (counterexample): behind-stitching is not confined to a
multi-line mode that includes "behind" — under mode 1 (before only) a
continuation line is still recorded with an OffsetBehind tag; and a
non-blank continuation line led by a tab (whitespace, but not an ASCII
space) is not stitched under mode 2, leaving only the primary entry. -/
theorem C4_mode_and_tab :
    (Severity.error + Severity.offset_behind, (" c".data))
      ∈ (process ⟨1, false, none, []⟩
          [("a error: b".data), (" c".data)]).st.result_list ∧
    (process ⟨2, false, none, []⟩
        [("a error: b".data), ("\tc".data)]).st.result_list
      = [(Severity.error, ("a error: b".data))] := by
  refine ⟨by decide, by decide⟩

/-- Claim C4 (amended): under any nonzero multi-line mode, a line
classified above Ignore followed by non-blank lines that begin with an
ASCII space and classify as Ignore yields exactly one
OffsetBehind-tagged entry per continuation line, all carrying the
diagnostic's severity plus OffsetBehind (the carried severity is
preserved, so a run of continuation lines shares it); stitching stops
at the first line that is blank, entirely whitespace or does not begin
with a space; with multi-line mode 0 no OffsetBehind-tagged entry is
ever recorded. -/
theorem C4_behind_amended :
    (∀ (cfg : Config) (ls : LoopState) (raw : List Char),
        cfg.option_multi_line ≠ 0 → ls.severity > Severity.ignore →
        match_severity (stripNl raw) = Severity.ignore →
        (stripNl raw).head? = some ' ' → pyIsSpaceAll (stripNl raw) = false →
        (step cfg ls raw).st.result_list
          = ls.st.result_list
            ++ [(ls.severity + Severity.offset_behind, stripNl raw)] ∧
        (step cfg ls raw).severity = ls.severity) ∧
    (∀ (cfg : Config) (ls : LoopState) (raw : List Char),
        match_severity (stripNl raw) = Severity.ignore →
        ((stripNl raw).head? ≠ some ' ' ∨ pyIsSpaceAll (stripNl raw) = true) →
        (step cfg ls raw).st.result_list = ls.st.result_list ∧
        (step cfg ls raw).severity = Severity.ignore) ∧
    (∀ (cfg : Config) (lines : List (List Char)),
        cfg.option_multi_line = 0 →
        ∀ e, e ∈ (process cfg lines).st.result_list →
          e.1 = Severity.note ∨ e.1 = Severity.warning ∨ e.1 = Severity.error) := by
  refine ⟨?_, ?_, ?_⟩
  · intro cfg ls raw h1 h2 h3 h4 h5
    exact step_behind_stitch cfg ls raw h1 h2 h3 h4 h5
  · intro cfg ls raw h3 hstop
    refine step_ignore_no_stitch cfg ls raw h3 ?_
    intro hco
    rcases hstop with h | h
    · exact h hco.2.2.2.1
    · rw [hco.2.2.2.2] at h
      exact absurd h (by decide)
  · intro cfg lines hm e he
    exact process_mem_multi0 cfg hm lines initLoop
      (fun e2 he2 => absurd he2 (List.not_mem_nil e2)) e he

/-- Witness for C4_behind_amended at concrete inputs: a space-led
continuation stitches; a tab-led line and a space-led but entirely
whitespace line (space plus U+00A0) stop the stitching; under mode 0
only base tags appear. -/
theorem C4_behind_amended_witness :
    ((step ⟨2, false, none, []⟩ ⟨initState, Severity.error, []⟩
        (" c".data)).st.result_list
        = initState.result_list
          ++ [(Severity.error + Severity.offset_behind, stripNl (" c".data))] ∧
     (step ⟨2, false, none, []⟩ ⟨initState, Severity.error, []⟩
        (" c".data)).severity = Severity.error) ∧
    ((step ⟨2, false, none, []⟩ ⟨initState, Severity.error, []⟩
        ("\tc".data)).st.result_list = initState.result_list ∧
     (step ⟨2, false, none, []⟩ ⟨initState, Severity.error, []⟩
        ("\tc".data)).severity = Severity.ignore) ∧
    (pyIsSpaceAll (stripNl (" \xa0".data)) = true ∧
     (step ⟨2, false, none, []⟩ ⟨initState, Severity.error, []⟩
        (" \xa0".data)).st.result_list = initState.result_list ∧
     (step ⟨2, false, none, []⟩ ⟨initState, Severity.error, []⟩
        (" \xa0".data)).severity = Severity.ignore) ∧
    ((Severity.error, ("a error: b".data)).1 = Severity.note ∨
     (Severity.error, ("a error: b".data)).1 = Severity.warning ∨
     (Severity.error, ("a error: b".data)).1 = Severity.error) :=
  ⟨C4_behind_amended.1 ⟨2, false, none, []⟩ ⟨initState, Severity.error, []⟩
      (" c".data) (by decide) (by decide) (by decide) (by decide) (by decide),
   C4_behind_amended.2.1 ⟨2, false, none, []⟩ ⟨initState, Severity.error, []⟩
      ("\tc".data) (by decide) (Or.inl (by decide)),
   ⟨by decide,
    C4_behind_amended.2.1 ⟨2, false, none, []⟩ ⟨initState, Severity.error, []⟩
      (" \xa0".data) (by decide) (Or.inr (by decide))⟩,
   C4_behind_amended.2.2 ⟨0, false, none, []⟩ [("a error: b".data)] rfl
      (Severity.error, ("a error: b".data)) (by decide)⟩

/-- Claim C10: behind-continuation stitching is triggered only by a
leading ASCII space: a line whose first character is any other
character (for example a tab), classifying as Ignore, is never
stitched — whatever the configuration and the preceding severity — and
is classified on its own (carried severity becomes Ignore, nothing is
appended). -/
theorem C10_tab_not_continuation (cfg : Config) (ls : LoopState)
    (raw : List Char) (c : Char) (r : List Char)
    (hline : stripNl raw = c :: r) (hc : c ≠ ' ')
    (hsev : match_severity (stripNl raw) = Severity.ignore) :
    (step cfg ls raw).st.result_list = ls.st.result_list ∧
    (step cfg ls raw).severity = Severity.ignore := by
  refine step_ignore_no_stitch cfg ls raw hsev ?_
  intro hco
  have h4 := hco.2.2.2.1
  rw [hline] at h4
  simp only [List.head?_cons, Option.some.injEq] at h4
  exact hc h4

/-- Witness for C10_tab_not_continuation: a tab-led line after an error
line, in behind mode. -/
theorem C10_tab_not_continuation_witness :
    (stripNl ("\tcont".data) = '\t' :: ("cont".data) ∧ ('\t' : Char) ≠ ' ' ∧
     match_severity (stripNl ("\tcont".data)) = Severity.ignore) ∧
    ((step ⟨2, false, none, []⟩ ⟨initState, Severity.error, []⟩
        ("\tcont".data)).st.result_list = initState.result_list ∧
     (step ⟨2, false, none, []⟩ ⟨initState, Severity.error, []⟩
        ("\tcont".data)).severity = Severity.ignore) :=
  ⟨⟨by decide, by decide, by decide⟩,
   C10_tab_not_continuation ⟨2, false, none, []⟩ ⟨initState, Severity.error, []⟩
      ("\tcont".data) '\t' ("cont".data) (by decide) (by decide) (by decide)⟩

/-- Claim C6: with suppress-identical enabled, a processed line whose
(path-resolved) text equals the text of an already-recorded entry
increments the suppressed counter of its severity, leaves the Entry
sequence and the accepted counter unchanged and returns Ignore; with it
disabled, every call appends the (possibly before-context preceded)
entry, increments the accepted counter of its severity and leaves the
suppressed counter unchanged — so two identical diagnostic lines both
appear and both increment. -/
theorem C6_dedup (cfg : Config) (st : JState) (severity : Nat)
    (lp lb : List Char)
    (hsev : severity = Severity.note ∨ severity = Severity.warning ∨
      severity = Severity.error) :
    (cfg.option_suppress_identical = true →
      st.result_list.any (fun e => e.2 == resolved_line cfg lp) = true →
      (append_result_list cfg st severity lp lb).1.result_list
          = st.result_list ∧
      (append_result_list cfg st severity lp lb).2 = Severity.ignore ∧
      suppressedOf (append_result_list cfg st severity lp lb).1 severity
          = suppressedOf st severity + 1 ∧
      acceptedOf (append_result_list cfg st severity lp lb).1 severity
          = acceptedOf st severity) ∧
    (cfg.option_suppress_identical = false →
      (append_result_list cfg st severity lp lb).1.result_list
          = st.result_list
            ++ (if cfg.option_multi_line ≠ 0 ∧ lb.isEmpty = false
                then [(severity + Severity.offset_before, lb)] else [])
            ++ [(severity, resolved_line cfg lp)] ∧
      (append_result_list cfg st severity lp lb).2 = severity ∧
      acceptedOf (append_result_list cfg st severity lp lb).1 severity
          = acceptedOf st severity + 1 ∧
      suppressedOf (append_result_list cfg st severity lp lb).1 severity
          = suppressedOf st severity) := by
  constructor
  · intro hsup hmem
    rcases hsev with h | h | h <;> subst h <;>
      simp [append_result_list, suppressedOf, acceptedOf, hsup, hmem,
        Severity.note, Severity.info, Severity.warning, Severity.error,
        Severity.ignore]
  · intro hsup
    rcases hsev with h | h | h <;> subst h <;>
      simp [append_result_list, suppressedOf, acceptedOf, hsup,
        Severity.note, Severity.info, Severity.warning, Severity.error,
        Severity.ignore] <;>
      split <;> simp

/-- Witness for C6_dedup: an error entry already present is suppressed
under the flag, and appended again without it. -/
theorem C6_dedup_witness :
    ((append_result_list ⟨0, true, none, []⟩
          ⟨[(Severity.error, ("x error: y".data))], 0, 0, 0, 0, 0, 0, 0, 1, 1⟩
          Severity.error ("x error: y".data) []).1.result_list
        = [(Severity.error, ("x error: y".data))] ∧
     (append_result_list ⟨0, true, none, []⟩
          ⟨[(Severity.error, ("x error: y".data))], 0, 0, 0, 0, 0, 0, 0, 1, 1⟩
          Severity.error ("x error: y".data) []).2 = Severity.ignore) ∧
    ((append_result_list ⟨0, false, none, []⟩
          ⟨[(Severity.error, ("x error: y".data))], 0, 0, 0, 0, 0, 0, 0, 1, 1⟩
          Severity.error ("x error: y".data) []).1.result_list
        = [(Severity.error, ("x error: y".data))]
          ++ (if (0 : Nat) ≠ 0 ∧ (List.nil (α := Char)).isEmpty = false
              then [(Severity.error + Severity.offset_before, [])] else [])
          ++ [(Severity.error,
               resolved_line ⟨0, false, none, []⟩ ("x error: y".data))] ∧
     (append_result_list ⟨0, false, none, []⟩
          ⟨[(Severity.error, ("x error: y".data))], 0, 0, 0, 0, 0, 0, 0, 1, 1⟩
          Severity.error ("x error: y".data) []).2 = Severity.error) :=
  ⟨⟨((C6_dedup ⟨0, true, none, []⟩
        ⟨[(Severity.error, ("x error: y".data))], 0, 0, 0, 0, 0, 0, 0, 1, 1⟩
        Severity.error ("x error: y".data) []
        (Or.inr (Or.inr rfl))).1 rfl (by decide)).1,
    ((C6_dedup ⟨0, true, none, []⟩
        ⟨[(Severity.error, ("x error: y".data))], 0, 0, 0, 0, 0, 0, 0, 1, 1⟩
        Severity.error ("x error: y".data) []
        (Or.inr (Or.inr rfl))).1 rfl (by decide)).2.1⟩,
   ⟨((C6_dedup ⟨0, false, none, []⟩
        ⟨[(Severity.error, ("x error: y".data))], 0, 0, 0, 0, 0, 0, 0, 1, 1⟩
        Severity.error ("x error: y".data) []
        (Or.inr (Or.inr rfl))).2 rfl).1,
    ((C6_dedup ⟨0, false, none, []⟩
        ⟨[(Severity.error, ("x error: y".data))], 0, 0, 0, 0, 0, 0, 0, 1, 1⟩
        Severity.error ("x error: y".data) []
        (Or.inr (Or.inr rfl))).2 rfl).2.1⟩⟩

/-- Claim C5 (amended): the rewriter picks its replacement template
from the first match of the union pattern, but substitutes every
non-overlapping match in the line with that template; only the
match-free segments between matches are left unchanged.  Stated as:
the rewrite is the global substitution under the first match's
template; the substitution passes over any prefix in which no match
starts; at a match it emits the template applied to that occurrence's
own groups and continues after the matched text. -/
theorem C5_sub_rewrites_every_match :
    (∀ (line : List Char) (g : UGroups), searchU line = some g →
        match_line_and_column line = subU (pickTmpl g) line) ∧
    (∀ (t : Tmpl) (u v : List Char), tailsAllFail v u = true →
        subU t (u ++ v) = u ++ subU t v) ∧
    (∀ (t : Tmpl) (c : Char) (tl r : List Char) (g : UGroups),
        tryMatch (c :: tl) = some (g, r) →
        subU t (c :: tl) = applyTmpl t g ++ subU t r) := by
  refine ⟨?_, ?_, ?_⟩
  · intro line g h
    simp [match_line_and_column, h]
  · exact fun t u v h => subU_append_of_tailsAllFail t u v h
  · exact fun t c tl r g h => subU_cons_of_match t h

/-- Witness for C5_sub_rewrites_every_match at concrete inputs. -/
theorem C5_sub_rewrites_every_match_witness :
    (searchU ("ab:1: x".data) = some (UGroups.a1 (['1']) none) ∧
     match_line_and_column ("ab:1: x".data)
        = subU (pickTmpl (UGroups.a1 (['1']) none)) ("ab:1: x".data)) ∧
    (tailsAllFail (":1: x".data) ("ab".data) = true ∧
     subU Tmpl.t2 (("ab".data) ++ (":1: x".data))
        = ("ab".data) ++ subU Tmpl.t2 (":1: x".data)) ∧
    (tryMatch (':' :: ("1: x".data))
        = some (UGroups.a1 (['1']) none, (" x".data)) ∧
     subU Tmpl.t2 (':' :: ("1: x".data))
        = applyTmpl Tmpl.t2 (UGroups.a1 (['1']) none)
          ++ subU Tmpl.t2 (" x".data)) :=
  ⟨⟨by decide, C5_sub_rewrites_every_match.1 ("ab:1: x".data) _ (by decide)⟩,
   ⟨by decide, C5_sub_rewrites_every_match.2.1 Tmpl.t2 ("ab".data)
      (":1: x".data) (by decide)⟩,
   ⟨by decide, C5_sub_rewrites_every_match.2.2 Tmpl.t2 ':' ("1: x".data)
      (" x".data) (UGroups.a1 (['1']) none) (by decide)⟩⟩

/-- Claim C8 (amended): running rewrite on the canonical outputs of the
four dialect examples yields no further match (the rewriter returns the
empty string there); in general idempotence fails (see the
counterexample), but the inserted canonical location group itself —
`(L,C):` or `(L):` with digit-only line and column — never contains a
match of the union pattern, so any second-pass match comes from the
juxtaposition with the surrounding text, not from the canonical group. -/
theorem C8_canonical_group_matchfree :
    (match_line_and_column ("file.c(124,43): warning: x".data) = [] ∧
     match_line_and_column ("file.c(124): warning: x".data) = [] ∧
     match_line_and_column ("c:/f.c(276):  Warning[Pe177]: x".data) = [] ∧
     match_line_and_column ("c:\\t\\f.h(43): Warning[Pe1105]: x".data) = []) ∧
    (∀ l c : List Char, l.all Char.isDigit = true → c.all Char.isDigit = true →
        match_line_and_column ('(' :: (l ++ (',' :: (c ++ [')', ':'])))) = [] ∧
        match_line_and_column ('(' :: (l ++ (')' :: ':' :: []))) = []) := by
  refine ⟨⟨by decide, by decide, by decide, by decide⟩, ?_⟩
  intro l c hl hc
  constructor
  · have hs : searchU ('(' :: (l ++ (',' :: (c ++ [')', ':'])))) = none := by
      rw [searchU_cons_of_none (tryMatch_paren_digits_comma _ hl),
        searchU_digits_skip l hl,
        searchU_cons_of_none
          (tryMatch_cons_of_ne (by decide) (by decide) (by decide)),
        searchU_digits_skip c hc]
      decide
    simp [match_line_and_column, hs]
  · have hs : searchU ('(' :: (l ++ (')' :: ':' :: []))) = none := by
      rw [searchU_cons_of_none (tryMatch_paren_digits_close ([]) hl),
        searchU_digits_skip l hl]
      decide
    simp [match_line_and_column, hs]

/-- Witness for C8_canonical_group_matchfree at concrete digits. -/
theorem C8_canonical_group_matchfree_witness :
    ((['1'] : List Char).all Char.isDigit = true ∧
     (['2'] : List Char).all Char.isDigit = true) ∧
    match_line_and_column
        ('(' :: ((['1']) ++ (',' :: ((['2']) ++ [')', ':'])))) = [] ∧
    match_line_and_column ('(' :: ((['1']) ++ (')' :: ':' :: []))) = [] :=
  ⟨⟨by decide, by decide⟩,
   (C8_canonical_group_matchfree.2 (['1']) (['2']) (by decide) (by decide)).1,
   (C8_canonical_group_matchfree.2 (['1']) (['2']) (by decide) (by decide)).2⟩

/-- Claim C7: with a working directory configured, a processed line the
path-resolution regex matches is rewritten by substituting the bare
filename (group 1) with the first path the recursive working-directory
search yields, preserving the parenthesised location suffix and the
rest of the line; no substitution happens when the filename already
contains a separator, when no such file is found, or when no working
directory is configured.  The directory walk is the `workingDirGlob`
oracle of the configuration. -/
theorem C7_path_resolution :
    (convert_to_absolute_path
        ⟨0, false,
          some (fun n => if n == ("file.c".data)
            then some ("wd/sub/dir/file.c".data) else none), []⟩
        ("file.c(10): error: x".data)
      = ("wd/sub/dir/file.c(10): error: x".data)) ∧
    (convert_to_absolute_path ⟨0, false, some (fun _ => none), []⟩
        ("file.c(10): error: x".data) = []) ∧
    (convert_to_absolute_path
        ⟨0, false,
          some (fun n => if n == ("file.c".data)
            then some ("wd/sub/dir/file.c".data) else none), []⟩
        ("a/file.c(10): error: x".data) = []) ∧
    (∀ (cfg : Config) (line : List Char), cfg.workingDirGlob = none →
        convert_to_absolute_path cfg line = []) ∧
    (∀ (cfg : Config) (line g1 g4 rest : List Char)
        (glob : List Char → Option (List Char)),
        cfg.workingDirGlob = some glob →
        absMatch line = some (g1, g4, rest) →
        (g1.contains '/' || g1.contains '\\') = true →
        convert_to_absolute_path cfg line = []) ∧
    (∀ (cfg : Config) (line g1 g4 rest : List Char)
        (glob : List Char → Option (List Char)),
        cfg.workingDirGlob = some glob →
        absMatch line = some (g1, g4, rest) →
        (g1.contains '/' || g1.contains '\\') = false →
        glob g1 = none →
        convert_to_absolute_path cfg line = []) ∧
    (∀ (cfg : Config) (line g1 g4 rest path : List Char)
        (glob : List Char → Option (List Char)),
        cfg.workingDirGlob = some glob →
        absMatch line = some (g1, g4, rest) →
        (g1.contains '/' || g1.contains '\\') = false →
        glob g1 = some path →
        convert_to_absolute_path cfg line = path ++ g4 ++ ':' :: rest) ∧
    (∀ (cfg : Config) (p1 p2 loc rest path : List Char)
        (glob : List Char → Option (List Char)),
        cfg.workingDirGlob = some glob →
        p1 ≠ [] → p2 ≠ [] → loc ≠ [] →
        '\n' ∉ p1 → '\n' ∉ p2 → '\n' ∉ loc →
        '(' ∉ p1 → '(' ∉ p2 → '(' ∉ loc → ')' ∉ loc →
        containsSub (')' :: ':' :: []) (p1 ++ '.' :: p2) = false →
        containsSub (')' :: ':' :: []) rest = false →
        ((p1 ++ '.' :: p2).contains '/'
          || (p1 ++ '.' :: p2).contains '\\') = false →
        glob (p1 ++ '.' :: p2) = some path →
        convert_to_absolute_path cfg
            ((p1 ++ '.' :: p2) ++ '(' :: (loc ++ ')' :: ':' :: rest))
          = path ++ ('(' :: (loc ++ [')'])) ++ ':' :: rest) := by
  refine ⟨by decide, by decide, by decide, ?_, ?_, ?_, ?_, ?_⟩
  · intro cfg line hg
    simp [convert_to_absolute_path, hg]
  · intro cfg line g1 g4 rest glob hg habs hsep
    simp only [convert_to_absolute_path, hg, habs]
    rw [if_pos hsep]
  · intro cfg line g1 g4 rest glob hg habs hsep hmiss
    have hsep2 : ¬((g1.contains '/' || g1.contains '\\') = true) := by
      rw [hsep]; decide
    simp only [convert_to_absolute_path, hg, habs]
    rw [if_neg hsep2]
    simp [hmiss]
  · intro cfg line g1 g4 rest path glob hg habs hsep hhit
    have hsep2 : ¬((g1.contains '/' || g1.contains '\\') = true) := by
      rw [hsep]; decide
    simp only [convert_to_absolute_path, hg, habs]
    rw [if_neg hsep2]
    simp [hhit]
  · intro cfg p1 p2 loc rest path glob hg hp1 hp2 hloc hn1 hn2 hn3 ho1 ho2 ho3
      hc3 hfn hrest hsep hhit
    have habs := absMatch_structured p1 p2 loc rest hp1 hp2 hloc hn1 hn2 hn3
      ho1 ho2 ho3 hc3 hfn hrest
    have hsep2 : ¬(((p1 ++ '.' :: p2).contains '/'
        || (p1 ++ '.' :: p2).contains '\\') = true) := by
      rw [hsep]; decide
    simp only [convert_to_absolute_path, hg, habs]
    rw [if_neg hsep2]
    simp [hhit]

/-- Witness for C7_path_resolution at concrete inputs. -/
theorem C7_path_resolution_witness :
    (convert_to_absolute_path ⟨0, false, none, []⟩
        ("file.c(10): error: x".data) = []) ∧
    (absMatch ("file.c(10): error: x".data)
        = some (("file.c".data), ("(10)".data), (" error: x".data)) ∧
     convert_to_absolute_path
        ⟨0, false, some (fun _ => some ("p/q/file.c".data)), []⟩
        ("file.c(10): error: x".data)
       = ("p/q/file.c".data) ++ ("(10)".data) ++ ':' :: (" error: x".data)) ∧
    (convert_to_absolute_path
        ⟨0, false, some (fun _ => some ("p/q/file.c".data)), []⟩
        ((("file".data) ++ '.' :: ("c".data))
          ++ '(' :: (("10".data) ++ ')' :: ':' :: (" error: x".data)))
      = ("p/q/file.c".data) ++ ('(' :: (("10".data) ++ [')']))
        ++ ':' :: (" error: x".data)) :=
  ⟨C7_path_resolution.2.2.2.1 ⟨0, false, none, []⟩
      ("file.c(10): error: x".data) rfl,
   ⟨by decide,
    C7_path_resolution.2.2.2.2.2.2.1
      ⟨0, false, some (fun _ => some ("p/q/file.c".data)), []⟩
      ("file.c(10): error: x".data) ("file.c".data) ("(10)".data)
      (" error: x".data) ("p/q/file.c".data) (fun _ => some ("p/q/file.c".data))
      rfl (by decide) (by decide) rfl⟩,
   C7_path_resolution.2.2.2.2.2.2.2
      ⟨0, false, some (fun _ => some ("p/q/file.c".data)), []⟩
      ("file".data) ("c".data) ("10".data) (" error: x".data)
      ("p/q/file.c".data) (fun _ => some ("p/q/file.c".data))
      rfl (by decide) (by decide) (by decide) (by decide) (by decide)
      (by decide) (by decide) (by decide) (by decide) (by decide) (by decide)
      (by decide) (by decide) rfl⟩

/-- Claim C9: a decode failure at any point of the pass aborts the run
as a fatal error with the dedicated decode-failure status (3) and a
single error message naming the offending input file; no partial report
is produced — the result carries no Entries or Counters, whatever was
accumulated before the failure is discarded. -/
theorem C9_decode_failure (cfg : Config)
    (pre post : List (Option (List Char))) :
    process_input_file cfg (pre ++ none :: post)
        = Except.error (exit_fail_decode, decode_error_message cfg) ∧
    exit_fail_decode = 3 ∧
    containsSub cfg.option_file_input (decode_error_message cfg) = true := by
  refine ⟨processFrom_error cfg pre initLoop post, rfl, ?_⟩
  unfold decode_error_message
  rw [List.append_assoc]
  exact containsSub_middle _ _ _

end VSJumpToLine
